import Mathlib

/-!
Verification of the BMI tracker's persistence and analytics engine
(src/BMI.py) against its specification.

Numeric values (Python floats) are modelled as rationals; Python's
exceptions are modelled with `Except`; the SQLite-backed store is modelled
as an explicit state record with one Lean function per SQL-executing
operation.
-/

namespace BMISpec

/-- Round a rational to the nearest integer, ties going to the even
integer; models the rounding mode of Python's built-in `round`. -/
def roundHalfEven (q : ℚ) : ℤ :=
  let f := ⌊q⌋
  let r := q - (f : ℚ)
  if r < 1/2 then f
  else if 1/2 < r then f + 1
  else if f % 2 = 0 then f else f + 1

/-- `round(x, 2)` from Python: round to 2 decimal places. -/
def round2 (q : ℚ) : ℚ := (roundHalfEven (q * 100) : ℚ) / 100

/-- The Python exceptions `calculate_bmi` can raise: the explicit
`raise ValueError(...)` on the metric branch, and the `ZeroDivisionError`
Python raises on division by zero on the imperial branch. -/
inductive PyError where
  | valueError
  | zeroDivisionError
deriving DecidableEq

/-- `calculate_bmi` (src/BMI.py lines 91-105).  The source checks
`if unit == 'metric'` and treats every other unit string as imperial; on
the metric branch it raises `ValueError` for `height <= 0`, converts
centimeters to meters and computes `weight / (h_m * h_m)`; on the
imperial branch it computes `703.0 * weight / (height * height)` with no
guard, so `height = 0` raises Python's `ZeroDivisionError` (modelled
explicitly, since Lean's rational division by zero does not raise). -/
def calculate_bmi (weight height : ℚ) (unit : String) : Except PyError ℚ :=
  if unit = "metric" then
    if height ≤ 0 then .error .valueError
    else
      let h_m := height / 100
      .ok (round2 (weight / (h_m * h_m)))
  else
    if height * height = 0 then .error .zeroDivisionError
    else .ok (round2 (703 * weight / (height * height)))

/-- `bmi_category` (src/BMI.py lines 108-117). -/
def bmi_category (bmi : ℚ) : String :=
  if bmi < 18.5 then "Underweight"
  else if bmi < 25.0 then "Normal"
  else if bmi < 30.0 then "Overweight"
  else "Obese"

/-! Evaluation helpers: computing `roundHalfEven` and `round2` on concrete
rationals, with all side conditions dischargeable by `norm_num`. -/

lemma roundHalfEven_eq_low (q : ℚ) (n : ℤ) (h1 : (n : ℚ) ≤ q)
    (h2 : q < (n : ℚ) + 1) (h3 : q - (n : ℚ) < 1/2) : roundHalfEven q = n := by
  have hf : ⌊q⌋ = n := Int.floor_eq_iff.mpr ⟨h1, h2⟩
  simp only [roundHalfEven, hf, if_pos h3]

lemma roundHalfEven_eq_high (q : ℚ) (n : ℤ) (h1 : (n : ℚ) ≤ q)
    (h2 : q < (n : ℚ) + 1) (h3 : 1/2 < q - (n : ℚ)) : roundHalfEven q = n + 1 := by
  have hf : ⌊q⌋ = n := Int.floor_eq_iff.mpr ⟨h1, h2⟩
  have h3' : ¬ (q - (n : ℚ) < 1/2) := by linarith
  simp only [roundHalfEven, hf, if_neg h3', if_pos h3]

lemma round2_eq_low (q : ℚ) (n : ℤ) (b : ℚ) (h1 : (n : ℚ) ≤ q * 100)
    (h2 : q * 100 < (n : ℚ) + 1) (h3 : q * 100 - (n : ℚ) < 1/2)
    (h4 : (n : ℚ) / 100 = b) : round2 q = b := by
  rw [round2, roundHalfEven_eq_low (q * 100) n h1 h2 h3, h4]

lemma round2_eq_high (q : ℚ) (n : ℤ) (b : ℚ) (h1 : (n : ℚ) ≤ q * 100)
    (h2 : q * 100 < (n : ℚ) + 1) (h3 : 1/2 < q * 100 - (n : ℚ))
    (h4 : ((n : ℚ) + 1) / 100 = b) : round2 q = b := by
  rw [round2, roundHalfEven_eq_high (q * 100) n h1 h2 h3]
  push_cast
  exact h4

lemma calculate_bmi_metric (w h : ℚ) (hh : ¬ h ≤ 0) :
    calculate_bmi w h "metric" = .ok (round2 (w / (h/100 * (h/100)))) := by
  unfold calculate_bmi
  rw [if_pos rfl, if_neg hh]

lemma calculate_bmi_other (w h : ℚ) (u : String) (hu : u ≠ "metric")
    (hh : ¬ h * h = 0) :
    calculate_bmi w h u = .ok (round2 (703 * w / (h * h))) := by
  unfold calculate_bmi
  rw [if_neg hu, if_neg hh]

/-- `calculate_bmi 70 175 "metric"` evaluates to `22.86`
(spec §8: stored bmi = 22.86 for weight 70, height 175, metric). -/
lemma calc_70_175 : calculate_bmi 70 175 "metric" = .ok 22.86 := by
  rw [calculate_bmi_metric 70 175 (by norm_num)]
  rw [round2_eq_high (70 / (175/100 * (175/100))) 2285 22.86 (by norm_num)
    (by norm_num) (by norm_num) (by norm_num)]

/-! Characterisations of `bmi_category`, one per category. -/

lemma category_underweight_iff (b : ℚ) :
    bmi_category b = "Underweight" ↔ b < 18.5 := by
  unfold bmi_category
  split_ifs with h1 h2 h3
  · exact iff_of_true rfl h1
  · exact iff_of_false (by decide) h1
  · exact iff_of_false (by decide) h1
  · exact iff_of_false (by decide) h1

lemma category_normal_iff (b : ℚ) :
    bmi_category b = "Normal" ↔ 18.5 ≤ b ∧ b < 25.0 := by
  unfold bmi_category
  split_ifs with h1 h2 h3
  · exact iff_of_false (by decide) (by rintro ⟨hl, -⟩; linarith)
  · exact iff_of_true rfl ⟨le_of_not_lt h1, h2⟩
  · exact iff_of_false (by decide) (by rintro ⟨-, hr⟩; exact h2 hr)
  · exact iff_of_false (by decide) (by rintro ⟨-, hr⟩; exact h2 hr)

lemma category_overweight_iff (b : ℚ) :
    bmi_category b = "Overweight" ↔ 25.0 ≤ b ∧ b < 30.0 := by
  unfold bmi_category
  split_ifs with h1 h2 h3
  · exact iff_of_false (by decide) (by rintro ⟨hl, -⟩; linarith)
  · exact iff_of_false (by decide) (by rintro ⟨hl, -⟩; exact absurd h2 (not_lt.mpr hl))
  · exact iff_of_true rfl ⟨le_of_not_lt h2, h3⟩
  · exact iff_of_false (by decide) (by rintro ⟨-, hr⟩; exact h3 hr)

lemma category_obese_iff (b : ℚ) :
    bmi_category b = "Obese" ↔ 30.0 ≤ b := by
  unfold bmi_category
  split_ifs with h1 h2 h3
  · exact iff_of_false (by decide) (by intro hl; linarith)
  · exact iff_of_false (by decide) (by intro hl; exact absurd h2 (not_lt.mpr (by linarith)))
  · exact iff_of_false (by decide) (by intro hl; exact absurd h3 (not_lt.mpr hl))
  · exact iff_of_true rfl (le_of_not_lt h3)

/-- C2: for all positive weight and height, `calculate_bmi` with unit
`"metric"` returns `round(weight / (height/100)^2, 2)` and with unit
`"imperial"` returns `round(703*weight/height^2, 2)`, each rounded to two
decimal places. -/
theorem C2_compute_formulas (w h : ℚ) (_hw : 0 < w) (hh : 0 < h) :
    calculate_bmi w h "metric" = .ok (round2 (w / (h/100)^2)) ∧
    calculate_bmi w h "imperial" = .ok (round2 (703 * w / h^2)) := by
  constructor
  · rw [calculate_bmi_metric w h (not_le.mpr hh)]
    rw [show w / (h/100 * (h/100)) = w / (h/100)^2 by ring]
  · rw [calculate_bmi_other w h "imperial" (by decide) (ne_of_gt (mul_pos hh hh))]
    rw [show 703 * w / (h * h) = 703 * w / h^2 by ring]

/-- Witness for C2 at weight 70 kg, height 175 cm / 70 lb, 175 in. -/
theorem C2_witness :
    calculate_bmi 70 175 "metric" = .ok (round2 (70 / ((175:ℚ)/100)^2)) ∧
    calculate_bmi 70 175 "imperial" = .ok (round2 (703 * 70 / (175:ℚ)^2)) :=
  C2_compute_formulas 70 175 (by norm_num) (by norm_num)

/-- C3: `bmi_category` returns "Underweight" iff bmi < 18.5, "Normal" iff
18.5 ≤ bmi < 25.0, "Overweight" iff 25.0 ≤ bmi < 30.0, "Obese" iff
bmi ≥ 30.0; each boundary value belongs to the higher band. -/
theorem C3_classify (bmi : ℚ) :
    (bmi_category bmi = "Underweight" ↔ bmi < 18.5) ∧
    (bmi_category bmi = "Normal" ↔ 18.5 ≤ bmi ∧ bmi < 25.0) ∧
    (bmi_category bmi = "Overweight" ↔ 25.0 ≤ bmi ∧ bmi < 30.0) ∧
    (bmi_category bmi = "Obese" ↔ 30.0 ≤ bmi) ∧
    bmi_category 18.5 = "Normal" ∧ bmi_category 25.0 = "Overweight" ∧
    bmi_category 30.0 = "Obese" :=
  ⟨category_underweight_iff bmi, category_normal_iff bmi,
   category_overweight_iff bmi, category_obese_iff bmi,
   (category_normal_iff 18.5).mpr ⟨le_refl _, by norm_num⟩,
   (category_overweight_iff 25.0).mpr ⟨le_refl _, by norm_num⟩,
   (category_obese_iff 30.0).mpr (le_refl _)⟩

/-- Counterexample for C6: `calculate_bmi` does not fail on a non-positive
weight; with weight -5 ≤ 0 and metric units it succeeds and returns -1.63. -/
theorem C6_counterexample :
    (-5 : ℚ) ≤ 0 ∧ calculate_bmi (-5) 175 "metric" = .ok (-1.63) := by
  refine ⟨by norm_num, ?_⟩
  rw [calculate_bmi_metric (-5) 175 (by norm_num)]
  rw [round2_eq_high ((-5) / (175/100 * (175/100))) (-164) (-1.63) (by norm_num)
    (by norm_num) (by norm_num) (by norm_num)]

/-- C6 amended: `calculate_bmi` raises `ValueError` exactly when the unit is
"metric" and height ≤ 0; weight is never validated; on every non-metric unit
no `ValueError` is possible — height 0 raises `ZeroDivisionError` instead —
and all positive inputs succeed in both unit systems. -/
theorem C6_amended_guards (w h : ℚ) :
    (calculate_bmi w h "metric" = .error .valueError ↔ h ≤ 0) ∧
    (∀ u, u ≠ "metric" → (calculate_bmi w h u = .error .zeroDivisionError ↔ h = 0)) ∧
    (∀ u, u ≠ "metric" → calculate_bmi w h u ≠ .error .valueError) ∧
    (0 < h → ∃ q1 q2, calculate_bmi w h "metric" = .ok q1 ∧
      calculate_bmi w h "imperial" = .ok q2) := by
  refine ⟨?_, ?_, ?_, ?_⟩
  · unfold calculate_bmi
    rw [if_pos rfl]
    by_cases hle : h ≤ 0
    · rw [if_pos hle]
      exact iff_of_true rfl hle
    · rw [if_neg hle]
      exact iff_of_false (by simp) hle
  · intro u hu
    unfold calculate_bmi
    rw [if_neg hu]
    by_cases hz : h * h = 0
    · rw [if_pos hz]
      exact iff_of_true rfl (mul_self_eq_zero.mp hz)
    · rw [if_neg hz]
      exact iff_of_false (by simp) (fun h0 => hz (by rw [h0]; ring))
  · intro u hu
    unfold calculate_bmi
    rw [if_neg hu]
    by_cases hz : h * h = 0
    · rw [if_pos hz]
      simp
    · rw [if_neg hz]
      simp
  · intro hpos
    exact ⟨_, _, calculate_bmi_metric w h (not_le.mpr hpos),
      calculate_bmi_other w h "imperial" (by decide) (ne_of_gt (mul_pos hpos hpos))⟩

/-- Counterexample for C10: with unit "Metric" (not the lowercase "metric")
and height 0 the imperial branch is taken and Python's division by zero
raises `ZeroDivisionError`, so no rounded value is returned. -/
theorem C10_counterexample :
    ("Metric" : String) ≠ "metric" ∧
    calculate_bmi 70 0 "Metric" = .error .zeroDivisionError ∧
    ∀ q : ℚ, calculate_bmi 70 0 "Metric" ≠ .ok q := by
  refine ⟨by decide, ?_, ?_⟩
  · unfold calculate_bmi
    rw [if_neg (by decide), if_pos (by norm_num)]
  · intro q
    unfold calculate_bmi
    rw [if_neg (by decide), if_pos (by norm_num)]
    simp

/-- C10 amended: for every unit string other than the exact lowercase
"metric" — "Metric", "imperial" or any unrecognized string — and every
nonzero height (of either sign: the positivity guard is absent on this
branch), `calculate_bmi` applies the imperial formula
`round(703*weight/height^2, 2)`; the unit argument is never validated. -/
theorem C10_amended_imperial (w h : ℚ) (u : String) (hu : u ≠ "metric")
    (hh : h ≠ 0) : calculate_bmi w h u = .ok (round2 (703 * w / h^2)) := by
  rw [calculate_bmi_other w h u hu (mul_ne_zero hh hh)]
  rw [show 703 * w / (h * h) = 703 * w / h^2 by ring]

/-- Witness for C10 amended at the unvalidated unit "Metric" and a negative
height. -/
theorem C10_witness :
    calculate_bmi 150 (-65) "Metric" = .ok (round2 (703 * 150 / (-65:ℚ)^2)) :=
  C10_amended_imperial 150 (-65) "Metric" (by decide) (by norm_num)

/-! ## The store

The SQLite database of src/BMI.py, modelled as an explicit state record.
The `users` and `readings` tables are lists in rowid (insertion) order;
`AUTOINCREMENT` primary keys are modelled by the `next…Id` counters.  The
schema (`ensure_tables`, lines 28-51) declares `name TEXT UNIQUE` — a
binary, case-sensitive uniqueness in SQLite — and a `FOREIGN KEY` that
SQLite does not enforce because the code never issues
`PRAGMA foreign_keys=ON`.  `datetime.utcnow()` is modelled as a timestamp
argument supplied by the environment at each call. -/

/-- A row of the `users` table. -/
structure User where
  id : Nat
  name : String
  dob : Option String
deriving DecidableEq

/-- A row of the `readings` table. -/
structure Reading where
  id : Nat
  user_id : Nat
  timestamp : Nat
  weight : ℚ
  height : ℚ
  unit : String
  bmi : ℚ
  category : String
  notes : Option String
deriving DecidableEq

/-- The database state. -/
structure DBState where
  users : List User
  readings : List Reading
  nextUserId : Nat
  nextReadingId : Nat
deriving DecidableEq

/-- A fresh database: both tables empty, AUTOINCREMENT keys starting at 1. -/
def initState : DBState := ⟨[], [], 1, 1⟩

/-- `DB.add_user` (lines 53-60): `INSERT INTO users (name, dob)`; the
`UNIQUE` constraint on `name` compares byte-for-byte (case-sensitively),
and the raised `sqlite3.IntegrityError` is caught and turned into `None`. -/
def add_user (s : DBState) (name : String) (dob : Option String) :
    Option Nat × DBState :=
  if s.users.any (fun u => u.name = name) then (none, s)
  else (some s.nextUserId,
    { s with users := s.users ++ [⟨s.nextUserId, name, dob⟩],
             nextUserId := s.nextUserId + 1 })

/-- `DB.save_reading` (lines 72-79): inserts the row exactly as given —
`bmi` and `category` are parameters, not recomputed — with the
environment-supplied timestamp; no check that `user_id` exists (the
declared foreign key is not enforced by SQLite here). -/
def save_reading (s : DBState) (uid : Nat) (ts : Nat) (w h : ℚ)
    (unit : String) (bmi : ℚ) (category : String) (notes : Option String) :
    Nat × DBState :=
  (s.nextReadingId,
    { s with readings := s.readings ++ [⟨s.nextReadingId, uid, ts, w, h, unit, bmi, category, notes⟩],
             nextReadingId := s.nextReadingId + 1 })

/-- The effect of `UPDATE users SET name=? WHERE id=?` on one row. -/
def rename_row (uid : Nat) (newname : String) (u : User) : User :=
  if u.id = uid then { u with name := newname } else u

/-- The SQL core of `BMIApp.rename_user_dialog` (lines 285-291):
`UPDATE users SET name=? WHERE id=?`.  The update violates the `UNIQUE`
constraint — and is rolled back, the exception being caught — exactly when
a different row already carries the new name byte-for-byte. -/
def rename_user (s : DBState) (uid : Nat) (newname : String) : DBState :=
  if s.users.any (fun u => u.name = newname ∧ u.id ≠ uid) then s
  else { s with users := s.users.map (rename_row uid newname) }

/-- The SQL core of `BMIApp.delete_user` (lines 299-302): delete the
readings of the user, then the user row, in one commit.  No count is
returned and an absent id deletes nothing without an error. -/
def delete_user (s : DBState) (uid : Nat) : DBState :=
  { s with readings := s.readings.filter (fun r => r.user_id ≠ uid),
           users := s.users.filter (fun u => u.id ≠ uid) }

/-- The SQL core of `BMIApp.delete_selected_reading` (line 425):
`DELETE FROM readings WHERE id=?`. -/
def delete_reading (s : DBState) (rid : Nat) : DBState :=
  { s with readings := s.readings.filter (fun r => r.id ≠ rid) }

/-- The states reachable from a fresh database through the store's
mutating operations. -/
inductive Reachable : DBState → Prop
  | init : Reachable initState
  | add (s : DBState) (name : String) (dob : Option String) :
      Reachable s → Reachable (add_user s name dob).2
  | save (s : DBState) (uid ts : Nat) (w h : ℚ) (unit : String) (bmi : ℚ)
      (category : String) (notes : Option String) :
      Reachable s → Reachable (save_reading s uid ts w h unit bmi category notes).2
  | rename (s : DBState) (uid : Nat) (newname : String) :
      Reachable s → Reachable (rename_user s uid newname)
  | delUser (s : DBState) (uid : Nat) :
      Reachable s → Reachable (delete_user s uid)
  | delReading (s : DBState) (rid : Nat) :
      Reachable s → Reachable (delete_reading s rid)

/-! ## Invariants the store does maintain -/

/-- The user-table invariant kept by every reachable state: ids are below
the AUTOINCREMENT counter and rows are pairwise distinct in id and
(byte-for-byte) in name. -/
def StoreInv (s : DBState) : Prop :=
  (∀ u ∈ s.users, u.id < s.nextUserId) ∧
  s.users.Pairwise (fun u v => u.id ≠ v.id ∧ u.name ≠ v.name)

lemma rename_row_id (uid : Nat) (nn : String) (u : User) :
    (rename_row uid nn u).id = u.id := by
  unfold rename_row
  split <;> rfl

lemma storeInv_init : StoreInv initState := by
  constructor
  · intro u hu
    simp [initState] at hu
  · simp [initState]

lemma storeInv_add (s : DBState) (name : String) (dob : Option String)
    (ih : StoreInv s) : StoreInv (add_user s name dob).2 := by
  unfold add_user
  by_cases hc : s.users.any (fun u => u.name = name)
  · rw [if_pos hc]
    exact ih
  · rw [if_neg hc]
    simp only [List.any_eq_true, decide_eq_true_eq, not_exists, not_and] at hc
    constructor
    · intro u hu
      rcases List.mem_append.mp hu with h | h
      · exact Nat.lt_succ_of_lt (ih.1 u h)
      · simp only [List.mem_singleton] at h
        subst h
        exact Nat.lt_succ_self _
    · rw [List.pairwise_append]
      refine ⟨ih.2, List.pairwise_singleton _ _, ?_⟩
      intro u hu v hv
      simp only [List.mem_singleton] at hv
      subst hv
      exact ⟨Nat.ne_of_lt (ih.1 u hu), fun hn => hc u hu hn⟩

lemma storeInv_rename (s : DBState) (uid : Nat) (nn : String)
    (ih : StoreInv s) : StoreInv (rename_user s uid nn) := by
  unfold rename_user
  by_cases hc : s.users.any (fun u => u.name = nn ∧ u.id ≠ uid)
  · rw [if_pos hc]
    exact ih
  · rw [if_neg hc]
    simp only [List.any_eq_true, decide_eq_true_eq, not_exists, not_and] at hc
    constructor
    · intro u hu
      rcases List.mem_map.mp hu with ⟨v, hv, hvu⟩
      rw [← hvu, rename_row_id]
      exact ih.1 v hv
    · rw [List.pairwise_map]
      refine List.Pairwise.imp_of_mem ?_ ih.2
      intro a b ha hb hab
      refine ⟨by rw [rename_row_id, rename_row_id]; exact hab.1, ?_⟩
      unfold rename_row
      by_cases h1 : a.id = uid
      · by_cases h2 : b.id = uid
        · exact absurd (h1.trans h2.symm) hab.1
        · rw [if_pos h1, if_neg h2]
          show nn ≠ b.name
          intro he
          exact (hc b hb he.symm) h2
      · by_cases h2 : b.id = uid
        · rw [if_neg h1, if_pos h2]
          show a.name ≠ nn
          intro he
          exact (hc a ha he) h1
        · rw [if_neg h1, if_neg h2]
          exact hab.2

lemma storeInv_delete_user (s : DBState) (uid : Nat) (ih : StoreInv s) :
    StoreInv (delete_user s uid) := by
  constructor
  · intro u hu
    exact ih.1 u (List.mem_of_mem_filter hu)
  · exact ih.2.sublist (List.filter_sublist s.users)

/-- Every reachable state satisfies the user-table invariant. -/
lemma reachable_storeInv (s : DBState) (hs : Reachable s) : StoreInv s := by
  induction hs with
  | init => exact storeInv_init
  | add s name dob _ ih => exact storeInv_add s name dob ih
  | save s uid ts w h unit bmi category notes _ ih => exact ih
  | rename s uid newname _ ih => exact storeInv_rename s uid newname ih
  | delUser s uid _ ih => exact storeInv_delete_user s uid ih
  | delReading s rid _ ih => exact ih

/-! ## Claims about the store -/

/-- Counterexample for C1: `save_reading` accepts bmi/category from the
caller and stores them verbatim; storing bmi 99 for weight 70, height 175,
metric — whose computed BMI is 22.86 — succeeds. -/
theorem C1_counterexample :
    (save_reading initState 1 0 70 175 "metric" 99 "Obese" none).2.readings.map
      (fun r => (r.bmi, r.category)) = [(99, "Obese")] ∧
    calculate_bmi 70 175 "metric" = .ok 22.86 ∧ (99 : ℚ) ≠ 22.86 :=
  ⟨rfl, calc_70_175, by norm_num⟩

/-- C1 amended: `save_reading` stores the caller-supplied bmi and category
verbatim; when the caller passes `bmi = calculate_bmi(weight, height, unit)`
and `category = bmi_category(bmi)` — as `save_action` does when the inputs
are unchanged since the last Calculate — the stored reading satisfies the
invariant that its bmi is the calculator's value for its own stored
weight/height/unit and its category is the classification of that bmi. -/
theorem C1_amended_invariant (s : DBState) (uid ts : Nat) (w h : ℚ)
    (u : String) (b : ℚ) (notes : Option String)
    (hb : calculate_bmi w h u = .ok b) :
    ∃ r : Reading,
      (save_reading s uid ts w h u b (bmi_category b) notes).2.readings
        = s.readings ++ [r] ∧
      r.weight = w ∧ r.height = h ∧ r.unit = u ∧ r.bmi = b ∧
      calculate_bmi r.weight r.height r.unit = .ok r.bmi ∧
      r.category = bmi_category r.bmi :=
  ⟨⟨s.nextReadingId, uid, ts, w, h, u, b, bmi_category b, notes⟩,
    rfl, rfl, rfl, rfl, rfl, hb, rfl⟩

/-- Witness for C1 amended: saving weight 70, height 175, metric with the
calculator's own value 22.86. -/
theorem C1_witness :
    ∃ r : Reading,
      (save_reading initState 1 0 70 175 "metric" 22.86 (bmi_category 22.86)
        none).2.readings = initState.readings ++ [r] ∧
      r.weight = 70 ∧ r.height = 175 ∧ r.unit = "metric" ∧ r.bmi = 22.86 ∧
      calculate_bmi r.weight r.height r.unit = .ok r.bmi ∧
      r.category = bmi_category r.bmi :=
  C1_amended_invariant initState 1 0 70 175 "metric" 22.86 none calc_70_175

/-- Counterexample for C4: after `add_user "Alice"`, the call
`add_user "alice"` succeeds with a fresh id — the `UNIQUE` constraint of
the schema compares case-sensitively, so the claimed case-insensitive
`DuplicateUser` failure does not happen. -/
theorem C4_counterexample :
    (add_user initState "Alice" none).1 = some 1 ∧
    (add_user (add_user initState "Alice" none).2 "alice" none).1 = some 2 ∧
    "Alice".data.map Char.toLower = "alice".data.map Char.toLower ∧
    (add_user (add_user initState "Bob " none).2 "Bob" none).1 = some 2 ∧
    ("Bob ".data.reverse.dropWhile (fun c => c = ' ')).reverse = "Bob".data := by
  refine ⟨rfl, rfl, by decide, rfl, by decide⟩

/-- C4 amended: `add_user` fails (returns `None`, the model of the caught
`IntegrityError`) exactly when an existing user carries the byte-for-byte
identical name — a case-sensitive, untrimmed comparison — and otherwise
inserts and returns the fresh id; hence user names in every reachable
state are pairwise distinct case-sensitively, but not case-insensitively. -/
theorem C4_amended_exact_unique (s : DBState) (hs : Reachable s) :
    s.users.Pairwise (fun u v => u.name ≠ v.name) ∧
    ∀ name dob,
      ((add_user s name dob).1 = none ↔ ∃ u ∈ s.users, u.name = name) ∧
      (¬ (∃ u ∈ s.users, u.name = name) →
        (add_user s name dob).1 = some s.nextUserId) := by
  refine ⟨(reachable_storeInv s hs).2.imp (fun h => h.2), ?_⟩
  intro name dob
  unfold add_user
  by_cases hc : s.users.any (fun u => u.name = name)
  · rw [if_pos hc]
    simp only [List.any_eq_true, decide_eq_true_eq] at hc
    exact ⟨iff_of_true rfl hc, fun hn => absurd hc hn⟩
  · rw [if_neg hc]
    simp only [List.any_eq_true, decide_eq_true_eq] at hc
    exact ⟨iff_of_false (by simp) hc, fun _ => rfl⟩

/-- Witness for C4 amended at the state reached by adding "Alice". -/
theorem C4_witness :
    (add_user initState "Alice" none).2.users.Pairwise
      (fun u v => u.name ≠ v.name) ∧
    ∀ name dob,
      ((add_user (add_user initState "Alice" none).2 name dob).1 = none ↔
        ∃ u ∈ (add_user initState "Alice" none).2.users, u.name = name) ∧
      (¬ (∃ u ∈ (add_user initState "Alice" none).2.users, u.name = name) →
        (add_user (add_user initState "Alice" none).2 name dob).1 =
          some (add_user initState "Alice" none).2.nextUserId) :=
  C4_amended_exact_unique (add_user initState "Alice" none).2
    (Reachable.add initState "Alice" none Reachable.init)

/-- Counterexample for C5: referential integrity is not enforced —
`save_reading` for the nonexistent user id 7 succeeds from the fresh
database (SQLite never checks the declared foreign key here), reaching a
state with an orphaned reading; and `delete_user` of an absent id is a
silent no-op rather than a `NotFound` failure. -/
theorem C5_counterexample :
    Reachable (save_reading initState 7 0 70 175 "metric" 22.86 "Normal" none).2 ∧
    (∃ r ∈ (save_reading initState 7 0 70 175 "metric" 22.86 "Normal" none).2.readings,
      ∀ u ∈ (save_reading initState 7 0 70 175 "metric" 22.86 "Normal" none).2.users,
        u.id ≠ r.user_id) ∧
    delete_user initState 42 = initState := by
  refine ⟨Reachable.save initState 7 0 70 175 "metric" 22.86 "Normal" none
    Reachable.init, ⟨⟨1, 7, 0, 70, 175, "metric", 22.86, "Normal", none⟩, ?_, ?_⟩, rfl⟩
  · simp [save_reading, initState]
  · intro u hu
    simp [save_reading, initState] at hu

/-- C5 amended: the SQL pair executed by `delete_user` removes, in one
step, every reading owned by the user and the user row itself, and leaves
every other reading and user untouched; no count is returned, an absent id
is a silent no-op, and orphaned readings remain reachable because
`save_reading` never checks its user id. -/
theorem C5_amended_cascade (s : DBState) (uid : Nat) :
    (∀ r ∈ (delete_user s uid).readings, r.user_id ≠ uid) ∧
    (∀ u ∈ (delete_user s uid).users, u.id ≠ uid) ∧
    (∀ r ∈ s.readings, r.user_id ≠ uid → r ∈ (delete_user s uid).readings) ∧
    (∀ u ∈ s.users, u.id ≠ uid → u ∈ (delete_user s uid).users) := by
  refine ⟨?_, ?_, ?_, ?_⟩
  · intro r hr
    have := List.of_mem_filter hr
    simpa using this
  · intro u hu
    have := List.of_mem_filter hu
    simpa using this
  · intro r hr hne
    exact List.mem_filter.mpr ⟨hr, by simpa using hne⟩
  · intro u hu hne
    exact List.mem_filter.mpr ⟨hu, by simpa using hne⟩

/-! ## Trend statistics (HistoryService) -/

/-- The derived statistics of `BMIApp.refresh_chart` (lines 462-468). -/
structure StatsR where
  mean : ℚ
  min : ℚ
  max : ℚ
  last : ℚ
deriving DecidableEq

/-- The statistics block of `BMIApp.refresh_chart` (lines 432-471): on an
empty reading sequence it bails out before computing anything (the label
shows 'No readings', modelled `none`); otherwise it builds the list of bmi
values in sequence order and computes `sum(bmis)/len(bmis)`, `min(bmis)`,
`max(bmis)` and `bmis[-1]`.  Python's `min`/`max` over a nonempty list are
left folds of the binary operations. -/
def refresh_chart_stats (readings : List Reading) : Option StatsR :=
  match readings.map (fun r => r.bmi) with
  | [] => none
  | b :: bs =>
      some ⟨(b :: bs).sum / ((b :: bs).length : ℚ),
            bs.foldl Min.min b, bs.foldl Max.max b,
            (b :: bs).getLast (List.cons_ne_nil b bs)⟩

lemma foldl_min_mem (bs : List ℚ) (b : ℚ) : bs.foldl Min.min b ∈ b :: bs := by
  induction bs generalizing b with
  | nil => simp
  | cons c cs ih =>
      simp only [List.foldl_cons]
      rcases List.mem_cons.mp (ih (Min.min b c)) with h | h
      · rcases min_choice b c with hm | hm
        · rw [h, hm]
          exact List.mem_cons_self _ _
        · rw [h, hm]
          exact List.mem_cons_of_mem _ (List.mem_cons_self _ _)
      · exact List.mem_cons_of_mem _ (List.mem_cons_of_mem _ h)

lemma foldl_min_le (bs : List ℚ) (b : ℚ) : ∀ x ∈ b :: bs, bs.foldl Min.min b ≤ x := by
  induction bs generalizing b with
  | nil =>
      intro x hx
      simp only [List.mem_singleton] at hx
      simp [hx]
  | cons c cs ih =>
      intro x hx
      simp only [List.foldl_cons]
      rcases List.mem_cons.mp hx with hxb | hx'
      · rw [hxb]
        exact le_trans (ih (Min.min b c) _ (List.mem_cons_self _ _)) (min_le_left _ _)
      · rcases List.mem_cons.mp hx' with hxc | hx''
        · rw [hxc]
          exact le_trans (ih (Min.min b c) _ (List.mem_cons_self _ _)) (min_le_right _ _)
        · exact ih (Min.min b c) x (List.mem_cons_of_mem _ hx'')

lemma foldl_max_mem (bs : List ℚ) (b : ℚ) : bs.foldl Max.max b ∈ b :: bs := by
  induction bs generalizing b with
  | nil => simp
  | cons c cs ih =>
      simp only [List.foldl_cons]
      rcases List.mem_cons.mp (ih (Max.max b c)) with h | h
      · rcases max_choice b c with hm | hm
        · rw [h, hm]
          exact List.mem_cons_self _ _
        · rw [h, hm]
          exact List.mem_cons_of_mem _ (List.mem_cons_self _ _)
      · exact List.mem_cons_of_mem _ (List.mem_cons_of_mem _ h)

lemma foldl_max_ge (bs : List ℚ) (b : ℚ) : ∀ x ∈ b :: bs, x ≤ bs.foldl Max.max b := by
  induction bs generalizing b with
  | nil =>
      intro x hx
      simp only [List.mem_singleton] at hx
      simp [hx]
  | cons c cs ih =>
      intro x hx
      simp only [List.foldl_cons]
      rcases List.mem_cons.mp hx with hxb | hx'
      · rw [hxb]
        exact le_trans (le_max_left _ _) (ih (Max.max b c) _ (List.mem_cons_self _ _))
      · rcases List.mem_cons.mp hx' with hxc | hx''
        · rw [hxc]
          exact le_trans (le_max_right _ _) (ih (Max.max b c) _ (List.mem_cons_self _ _))
        · exact ih (Max.max b c) x (List.mem_cons_of_mem _ hx'')

lemma getLast_map_bmi (l : List Reading) (h : l ≠ []) :
    (l.map (fun r => r.bmi)).getLast (by simpa using h) = (l.getLast h).bmi := by
  simp

/-- C7: on the empty sequence the stats block yields no numbers at all
(never a numeric default); on every non-empty sequence the mean is the
arithmetic mean of the bmi values, min and max are the least and greatest
bmi values (attained ones), and last is the bmi of the final element of
the sequence in its given order. -/
theorem C7_stats (readings : List Reading) :
    refresh_chart_stats [] = none ∧
    ∀ (h : readings ≠ []), ∃ st, refresh_chart_stats readings = some st ∧
      st.mean = (readings.map (fun r => r.bmi)).sum / (readings.length : ℚ) ∧
      st.min ∈ readings.map (fun r => r.bmi) ∧
      (∀ b ∈ readings.map (fun r => r.bmi), st.min ≤ b) ∧
      st.max ∈ readings.map (fun r => r.bmi) ∧
      (∀ b ∈ readings.map (fun r => r.bmi), b ≤ st.max) ∧
      st.last = (readings.getLast h).bmi := by
  refine ⟨rfl, ?_⟩
  intro h
  match readings with
  | [] => exact absurd rfl h
  | r :: rs =>
      refine ⟨_, rfl, ?_, ?_, ?_, ?_, ?_, ?_⟩
      · simp only [List.map_cons, List.length_map, List.length_cons]
      · simpa only [List.map_cons] using foldl_min_mem (rs.map (fun r => r.bmi)) r.bmi
      · intro b hb
        exact foldl_min_le (rs.map (fun r => r.bmi)) r.bmi b
          (by simpa only [List.map_cons] using hb)
      · simpa only [List.map_cons] using foldl_max_mem (rs.map (fun r => r.bmi)) r.bmi
      · intro b hb
        exact foldl_max_ge (rs.map (fun r => r.bmi)) r.bmi b
          (by simpa only [List.map_cons] using hb)
      · exact getLast_map_bmi (r :: rs) h

/-! ## Reading order (`DB.get_readings`) -/

/-- The sort key of `SELECT ... ORDER BY timestamp` (line 83): rows are
compared on the timestamp column alone. -/
def tsLe (a b : Reading) : Prop := a.timestamp ≤ b.timestamp

instance : DecidableRel tsLe := fun a b => Nat.decLe a.timestamp b.timestamp

instance : IsTotal Reading tsLe := ⟨fun a b => Nat.le_total a.timestamp b.timestamp⟩

instance : IsTrans Reading tsLe := ⟨fun _ _ _ h1 h2 => Nat.le_trans h1 h2⟩

/-- The meaning of `DB.get_readings` (lines 81-84):
`SELECT ... FROM readings WHERE user_id=? ORDER BY timestamp`.  SQLite
returns the rows matching the `WHERE` clause in some order consistent
with the `ORDER BY` key; with no secondary key, the order among rows with
equal timestamps is left unspecified, so the query denotes a relation
between the state and the possible result lists. -/
def get_readings_rel (s : DBState) (uid : Nat) (out : List Reading) : Prop :=
  out.Perm (s.readings.filter (fun r => r.user_id = uid)) ∧ out.Sorted tsLe

/-- Counterexample for C8: two readings of user 1 saved with the same
timestamp (two `datetime.utcnow()` calls can return the same instant);
the list holding them in reverse id order is a legitimate result of
`ORDER BY timestamp` — the query imposes no id tie-break — yet it is not
sorted by (timestamp, id). -/
theorem C8_counterexample :
    Reachable (save_reading (save_reading initState 1 5 70 175 "metric"
      22.86 "Normal" none).2 1 5 71 175 "metric" 23.18 "Normal" none).2 ∧
    get_readings_rel (save_reading (save_reading initState 1 5 70 175 "metric"
      22.86 "Normal" none).2 1 5 71 175 "metric" 23.18 "Normal" none).2 1
      [⟨2, 1, 5, 71, 175, "metric", 23.18, "Normal", none⟩,
       ⟨1, 1, 5, 70, 175, "metric", 22.86, "Normal", none⟩] ∧
    ¬ ([(⟨2, 1, 5, 71, 175, "metric", 23.18, "Normal", none⟩ : Reading),
        ⟨1, 1, 5, 70, 175, "metric", 22.86, "Normal", none⟩].Sorted
      (fun a b => a.timestamp < b.timestamp ∨
        (a.timestamp = b.timestamp ∧ a.id ≤ b.id))) := by
  refine ⟨Reachable.save _ 1 5 71 175 "metric" 23.18 "Normal" none
    (Reachable.save initState 1 5 70 175 "metric" 22.86 "Normal" none
      Reachable.init), ⟨?_, ?_⟩, ?_⟩
  · exact List.Perm.swap _ _ []
  · refine List.sorted_cons.mpr ⟨?_, List.sorted_singleton _⟩
    intro b hb
    simp only [List.mem_singleton] at hb
    rw [hb]
    exact Nat.le_refl 5
  · intro hs
    have := (List.sorted_cons.mp hs).1 _ (List.mem_singleton.mpr rfl)
    rcases this with h | h
    · exact absurd h (by norm_num)
    · exact absurd h.2 (by norm_num)

/-- C8 amended: `get_readings` yields the user's readings sorted by
timestamp ascending — such a result always exists for every state — but
the query has no secondary sort key, so the relative order of readings
with equal timestamps is unspecified rather than id-ascending. -/
theorem C8_amended_sorted_by_timestamp (s : DBState) (uid : Nat) :
    ∃ out, get_readings_rel s uid out :=
  ⟨(s.readings.filter (fun r => r.user_id = uid)).insertionSort tsLe,
    List.perm_insertionSort tsLe _, List.sorted_insertionSort tsLe _⟩

/-! ## CSV export (`BMIApp.export_history`, lines 475-499)

The fallback branch of `export_history` writes with Python's `csv.writer`
under the default dialect: fields are separated by `,`, rows are
terminated by `\r\n`, a field containing the delimiter, the quote
character or a line-terminator character is wrapped in double quotes with
embedded quotes doubled (QUOTE_MINIMAL), and `None` is rendered as an
empty cell.  The writer and a CSV reader are modelled below on `List Char`
and proved to round-trip. -/

/-- QUOTE_MINIMAL: does the field need quoting? -/
def needsQuote (cs : List Char) : Bool :=
  cs.any (fun c => c = ',' ∨ c = '"' ∨ c = '\r' ∨ c = '\n')

/-- Double every quote character (the csv escaping rule). -/
def escapeQuotes : List Char → List Char
  | [] => []
  | c :: cs =>
      if c = '"' then '"' :: '"' :: escapeQuotes cs else c :: escapeQuotes cs

/-- A field as `csv.writer` emits it. -/
def quoteCell (cs : List Char) : List Char :=
  if needsQuote cs then '"' :: (escapeQuotes cs ++ ['"']) else cs

/-- One record as `csv.writer.writerow` emits it, terminator included. -/
def writeRow : List (List Char) → List Char
  | [] => ['\r', '\n']
  | [c] => quoteCell c ++ ['\r', '\n']
  | c :: cs => quoteCell c ++ ',' :: writeRow cs

/-- A whole file: the records in order. -/
def writeRows : List (List (List Char)) → List Char
  | [] => []
  | r :: rs => writeRow r ++ writeRows rs

/-- Scan an unquoted field: take characters up to a delimiter or a
record terminator. -/
def scanUnquoted : List Char → List Char × List Char
  | [] => ([], [])
  | c :: cs =>
      if c = ',' ∨ c = '\r' then ([], c :: cs)
      else
        let p := scanUnquoted cs
        (c :: p.1, p.2)

/-- Scan a quoted field, starting after the opening quote: a doubled
quote is an escaped quote character, a lone quote closes the field. -/
def scanQuoted : List Char → List Char × List Char
  | [] => ([], [])
  | [c] => if c = '"' then ([], []) else ([c], [])
  | c :: c2 :: cs =>
      if c = '"' then
        if c2 = '"' then
          let p := scanQuoted cs
          ('"' :: p.1, p.2)
        else ([], c2 :: cs)
      else
        let p := scanQuoted (c2 :: cs)
        (c :: p.1, p.2)

/-- Scan one field, choosing the quoted or unquoted mode by the first
character. -/
def scanField (cs : List Char) : List Char × List Char :=
  match cs with
  | '"' :: cs' => scanQuoted cs'
  | _ => scanUnquoted cs

lemma scanUnquoted_len (cs : List Char) :
    (scanUnquoted cs).2.length ≤ cs.length := by
  induction cs with
  | nil => simp [scanUnquoted]
  | cons c cs ih =>
      unfold scanUnquoted
      split
      · simp
      · simpa using Nat.le_succ_of_le ih

lemma scanQuoted_len : ∀ (cs : List Char), (scanQuoted cs).2.length ≤ cs.length
  | [] => by simp [scanQuoted]
  | [c] => by unfold scanQuoted; split <;> simp
  | c :: c2 :: cs => by
      unfold scanQuoted
      by_cases h1 : c = '"'
      · rw [if_pos h1]
        by_cases h2 : c2 = '"'
        · rw [if_pos h2]
          have ih := scanQuoted_len cs
          simpa using Nat.le_succ_of_le (Nat.le_succ_of_le ih)
        · rw [if_neg h2]
          simp
      · rw [if_neg h1]
        have ih := scanQuoted_len (c2 :: cs)
        simpa using Nat.le_succ_of_le ih

lemma scanField_len (cs : List Char) :
    (scanField cs).2.length ≤ cs.length := by
  unfold scanField
  split
  · rename_i cs'
    exact Nat.le_succ_of_le (scanQuoted_len cs')
  · exact scanUnquoted_len cs

/-- Parse one record: fields separated by commas, ended by the `\r\n`
terminator (or the end of the input). -/
def parseRecord (cs : List Char) : List (List Char) × List Char :=
  match hrest : (scanField cs).2 with
  | ',' :: r2 =>
      let q := parseRecord r2
      ((scanField cs).1 :: q.1, q.2)
  | '\r' :: '\n' :: r2 => ([(scanField cs).1], r2)
  | _ => ([(scanField cs).1], [])
termination_by cs.length
decreasing_by
  have hl := scanField_len cs
  rw [hrest] at hl
  simp at hl
  omega

/-- Parse a whole file into records; the fuel bounds the number of
records and any value at least the input length suffices. -/
def parseRecords (fuel : Nat) (cs : List Char) : List (List (List Char)) :=
  match fuel, cs with
  | 0, _ => []
  | _ + 1, [] => []
  | fuel + 1, c :: cs' =>
      let p := parseRecord (c :: cs')
      p.1 :: parseRecords fuel p.2

/-- Serialize rows of string cells to a CSV file. -/
def writeCSV (rows : List (List String)) : String :=
  String.mk (writeRows (rows.map (fun r => r.map String.data)))

/-- Parse a CSV file back into rows of string cells. -/
def parseCSV (s : String) : List (List String) :=
  (parseRecords (s.data.length + 1) s.data).map (fun r => r.map String.mk)

lemma scanField_quote (cs : List Char) : scanField ('"' :: cs) = scanQuoted cs := rfl

lemma scanField_not_quote (cs : List Char) (h : cs.head? ≠ some '"') :
    scanField cs = scanUnquoted cs := by
  cases cs with
  | nil => rfl
  | cons c cs' =>
      have hc : c ≠ '"' := by simpa using h
      unfold scanField
      split
      · rename_i heq
        rw [List.cons.injEq] at heq
        exact absurd heq.1 hc
      · rfl

lemma scanUnquoted_app (f r : List Char)
    (hf : ∀ c ∈ f, ¬(c = ',' ∨ c = '\r'))
    (hr : r = [] ∨ r.head? = some ',' ∨ r.head? = some '\r') :
    scanUnquoted (f ++ r) = (f, r) := by
  induction f with
  | nil =>
      simp only [List.nil_append]
      rcases hr with rfl | hr | hr
      · rfl
      · cases r with
        | nil => simp at hr
        | cons c cs =>
            simp only [List.head?_cons, Option.some.injEq] at hr
            unfold scanUnquoted
            rw [if_pos (Or.inl hr)]
      · cases r with
        | nil => simp at hr
        | cons c cs =>
            simp only [List.head?_cons, Option.some.injEq] at hr
            unfold scanUnquoted
            rw [if_pos (Or.inr hr)]
  | cons c cs ih =>
      simp only [List.cons_append]
      unfold scanUnquoted
      rw [if_neg (hf c (List.mem_cons_self _ _))]
      rw [ih (fun d hd => hf d (List.mem_cons_of_mem _ hd))]

lemma scanQuoted_cons (c d : Char) (ds : List Char) (hc : c ≠ '"') :
    scanQuoted (c :: d :: ds)
      = (c :: (scanQuoted (d :: ds)).1, (scanQuoted (d :: ds)).2) := by
  conv_lhs => unfold scanQuoted
  rw [if_neg hc]

lemma scanQuoted_app (f r : List Char) (hr : r.head? ≠ some '"') :
    scanQuoted (escapeQuotes f ++ '"' :: r) = (f, r) := by
  induction f with
  | nil =>
      simp only [escapeQuotes, List.nil_append]
      cases r with
      | nil => rfl
      | cons c2 cs =>
          have hc2 : c2 ≠ '"' := by simpa using hr
          unfold scanQuoted
          rw [if_pos rfl, if_neg hc2]
  | cons c cs ih =>
      by_cases hc : c = '"'
      · subst hc
        show scanQuoted ('"' :: '"' :: (escapeQuotes cs ++ '"' :: r)) = _
        unfold scanQuoted
        rw [if_pos rfl, if_pos rfl, ih]
      · have he : escapeQuotes (c :: cs) = c :: escapeQuotes cs := if_neg hc
        rw [he, List.cons_append]
        have hmain : scanQuoted (c :: (escapeQuotes cs ++ '"' :: r))
            = (c :: (scanQuoted (escapeQuotes cs ++ '"' :: r)).1,
               (scanQuoted (escapeQuotes cs ++ '"' :: r)).2) := by
          cases htail : escapeQuotes cs ++ '"' :: r with
          | nil => exact absurd htail (by simp)
          | cons d ds => exact scanQuoted_cons c d ds hc
        rw [hmain, ih]

lemma scanField_quoteCell (f r : List Char)
    (hr : r.head? = some ',' ∨ r.head? = some '\r') :
    scanField (quoteCell f ++ r) = (f, r) := by
  unfold quoteCell
  by_cases hq : needsQuote f
  · rw [if_pos hq]
    have ha : ('"' :: (escapeQuotes f ++ ['"'])) ++ r
        = '"' :: (escapeQuotes f ++ '"' :: r) := by simp
    rw [ha, scanField_quote]
    exact scanQuoted_app f r (by rcases hr with h | h <;> simp [h])
  · rw [if_neg hq]
    simp only [needsQuote, List.any_eq_true, decide_eq_true_eq, not_exists,
      not_and, not_or] at hq
    have hhead : (f ++ r).head? ≠ some '"' := by
      cases f with
      | nil =>
          simp only [List.nil_append]
          rcases hr with h | h <;> simp [h]
      | cons c cs =>
          simp only [List.cons_append, List.head?_cons, ne_eq, Option.some.injEq]
          exact (hq c (List.mem_cons_self _ _)).2.1
    rw [scanField_not_quote _ hhead]
    exact scanUnquoted_app f r
      (fun c hc => by
        have := hq c hc
        tauto)
      (Or.inr hr)

lemma parseRecord_writeRow :
    ∀ (cells : List (List Char)) (rest : List Char), cells ≠ [] →
      parseRecord (writeRow cells ++ rest) = (cells, rest)
  | [], _, hc => absurd rfl hc
  | [c], rest, _ => by
      have ha : writeRow [c] ++ rest = quoteCell c ++ '\r' :: '\n' :: rest := by
        show (quoteCell c ++ ['\r', '\n']) ++ rest = _
        simp
      rw [ha]
      have hsf := scanField_quoteCell c ('\r' :: '\n' :: rest) (Or.inr rfl)
      have h1 : (scanField (quoteCell c ++ '\r' :: '\n' :: rest)).1 = c := by
        rw [hsf]
      have h2 : (scanField (quoteCell c ++ '\r' :: '\n' :: rest)).2
          = '\r' :: '\n' :: rest := by
        rw [hsf]
      unfold parseRecord
      split
      · rename_i r2 heq
        rw [h2] at heq
        simp at heq
      · rename_i r2 heq
        rw [h2] at heq
        rw [List.cons.injEq] at heq
        rw [List.cons.injEq] at heq
        rw [h1, ← heq.2.2]
      · rename_i hne1 hne2
        exact absurd h2 (hne2 rest)
  | c :: c2 :: cs, rest, _ => by
      have ha : writeRow (c :: c2 :: cs) ++ rest
          = quoteCell c ++ ',' :: (writeRow (c2 :: cs) ++ rest) := by
        show (quoteCell c ++ ',' :: writeRow (c2 :: cs)) ++ rest = _
        simp
      rw [ha]
      have hsf := scanField_quoteCell c (',' :: (writeRow (c2 :: cs) ++ rest))
        (Or.inl rfl)
      have h1 : (scanField (quoteCell c ++ ',' :: (writeRow (c2 :: cs) ++ rest))).1
          = c := by
        rw [hsf]
      have h2 : (scanField (quoteCell c ++ ',' :: (writeRow (c2 :: cs) ++ rest))).2
          = ',' :: (writeRow (c2 :: cs) ++ rest) := by
        rw [hsf]
      unfold parseRecord
      split
      · rename_i r2 heq
        rw [h2] at heq
        rw [List.cons.injEq] at heq
        rw [h1, ← heq.2]
        rw [parseRecord_writeRow (c2 :: cs) rest (List.cons_ne_nil _ _)]
      · rename_i r2 heq
        rw [h2] at heq
        simp at heq
      · rename_i hne1 hne2
        exact absurd h2 (hne1 (writeRow (c2 :: cs) ++ rest))

lemma two_le_writeRow : ∀ (r : List (List Char)), 2 ≤ (writeRow r).length
  | [] => by simp [writeRow]
  | [c] => by simp [writeRow]
  | c :: c2 :: cs => by
      have ih := two_le_writeRow (c2 :: cs)
      show 2 ≤ (quoteCell c ++ ',' :: writeRow (c2 :: cs)).length
      simp only [List.length_append, List.length_cons]
      omega

lemma length_le_writeRows : ∀ (rows : List (List (List Char))),
    rows.length ≤ (writeRows rows).length
  | [] => Nat.le_refl 0
  | r :: rs => by
      have ih := length_le_writeRows rs
      have h2 := two_le_writeRow r
      show rs.length + 1 ≤ (writeRow r ++ writeRows rs).length
      simp only [List.length_append]
      omega

lemma parseRecords_writeRows :
    ∀ (rows : List (List (List Char))) (fuel : Nat), rows.length ≤ fuel →
      (∀ r ∈ rows, r ≠ []) → parseRecords fuel (writeRows rows) = rows
  | [], fuel, _, _ => by cases fuel <;> rfl
  | row :: rows, 0, hf, _ => by simp at hf
  | row :: rows, fuel + 1, hf, hne => by
      have h2 := two_le_writeRow row
      cases hw : writeRow row ++ writeRows rows with
      | nil =>
          rw [List.append_eq_nil] at hw
          rw [hw.1] at h2
          simp at h2
      | cons c cs' =>
          show parseRecords (fuel + 1) (writeRow row ++ writeRows rows) = _
          rw [hw]
          show (parseRecord (c :: cs')).1
              :: parseRecords fuel (parseRecord (c :: cs')).2 = row :: rows
          rw [← hw, parseRecord_writeRow row (writeRows rows)
            (hne row (List.mem_cons_self _ _))]
          exact congrArg (row :: ·) (parseRecords_writeRows rows fuel
            (Nat.succ_le_succ_iff.mp hf)
            (fun r hr => hne r (List.mem_cons_of_mem _ hr)))

lemma string_mk_data (s : String) : String.mk s.data = s := by
  obtain ⟨d⟩ := s
  rfl

lemma map_mk_map_data (r : List String) : (r.map String.data).map String.mk = r := by
  rw [List.map_map]
  have h : (String.mk ∘ String.data) = id := funext fun s => string_mk_data s
  rw [h, List.map_id]

/-- The csv writer and reader round-trip on every table whose records have
at least one field each. -/
lemma csv_roundtrip (rows : List (List String)) (hne : ∀ r ∈ rows, r ≠ []) :
    parseCSV (writeCSV rows) = rows := by
  have hfuel : (rows.map (fun r => r.map String.data)).length
      ≤ (writeRows (rows.map (fun r => r.map String.data))).length + 1 :=
    Nat.le_succ_of_le (length_le_writeRows _)
  have hne' : ∀ r ∈ rows.map (fun r => r.map String.data), r ≠ [] := by
    intro r hr
    rcases List.mem_map.mp hr with ⟨r0, hr0, hrr⟩
    rw [← hrr]
    simpa using hne r0 hr0
  unfold parseCSV writeCSV
  have hdata : (String.mk (writeRows (rows.map (fun r => r.map String.data)))).data
      = writeRows (rows.map (fun r => r.map String.data)) := rfl
  rw [hdata]
  rw [parseRecords_writeRows (rows.map (fun r => r.map String.data)) _ hfuel hne']
  rw [List.map_map]
  have h : ((fun r => List.map String.mk r) ∘ fun r => List.map String.data r)
      = id := funext fun r => map_mk_map_data r
  rw [h, List.map_id]

/-- Decimal rendering of an integer column value, as `str` does. -/
def natStr (n : Nat) : String := toString n

/-- Rendering of a numeric (real) column value.  Python renders the float
with `str`; in this rational model the value is rendered by `toString`,
which is likewise lossless.  Neither rendering can contain a delimiter,
quote or line-terminator character, and the round-trip below does not
depend on that. -/
def ratStr (q : ℚ) : String := toString q

/-- `csv.writer` renders the SQL `NULL` (Python `None`) as an empty cell. -/
def notesStr : Option String → String
  | none => ""
  | some s => s

/-- The header row of `export_history` (line 486). -/
def csvHeaders : List String :=
  ["id", "timestamp", "weight", "height", "unit", "bmi", "category", "notes"]

/-- One reading as the row tuple passed to `writer.writerow` (line 496),
each column rendered to its cell text. -/
def renderRow (r : Reading) : List String :=
  [natStr r.id, natStr r.timestamp, ratStr r.weight, ratStr r.height,
   r.unit, ratStr r.bmi, r.category, notesStr r.notes]

/-- `BMIApp.export_history` (lines 475-499), csv-module branch: refuses an
empty history ('No readings to export'), otherwise writes the header row
followed by one row per reading in the given order. -/
def export_history (readings : List Reading) : Option String :=
  if readings = [] then none
  else some (writeCSV (csvHeaders :: readings.map renderRow))

/-- C9: for every non-empty history, parsing the exported CSV back yields
the header row and then exactly the rendered rows of the readings, in
order — the (weight, height, unit, bmi, category, notes) cells of each
reading are reproduced row for row — and an absent notes value is
rendered as an empty cell, not the literal word "None". -/
theorem C9_export_roundtrip (readings : List Reading) (h : readings ≠ []) :
    ∃ file, export_history readings = some file ∧
      parseCSV file = csvHeaders :: readings.map renderRow ∧
      (∀ r ∈ readings, r.notes = none → (renderRow r).getLast? = some "") ∧
      ("" : String) ≠ "None" := by
  refine ⟨writeCSV (csvHeaders :: readings.map renderRow), ?_, ?_, ?_, by decide⟩
  · unfold export_history
    rw [if_neg h]
  · apply csv_roundtrip
    intro r hr
    rcases List.mem_cons.mp hr with hh | hr'
    · rw [hh]
      simp [csvHeaders]
    · rcases List.mem_map.mp hr' with ⟨r0, _, hrr⟩
      rw [← hrr]
      simp [renderRow]
  · intro r _ hn
    have he : (renderRow r).getLast? = some (notesStr r.notes) := rfl
    rw [he, hn]
    rfl

/-- Witness for C9 at a one-reading history with no notes. -/
theorem C9_witness :
    ∃ file, export_history [⟨1, 1, 0, 70, 175, "metric", 22.86, "Normal", none⟩]
        = some file ∧
      parseCSV file = csvHeaders ::
        List.map renderRow [⟨1, 1, 0, 70, 175, "metric", 22.86, "Normal", none⟩] ∧
      (∀ r ∈ [(⟨1, 1, 0, 70, 175, "metric", 22.86, "Normal", none⟩ : Reading)],
        r.notes = none → (renderRow r).getLast? = some "") ∧
      ("" : String) ≠ "None" :=
  C9_export_roundtrip [⟨1, 1, 0, 70, 175, "metric", 22.86, "Normal", none⟩]
    (by simp)

/-- Witness for C7: three readings with bmi values 20, 25, 30 in sequence
order give mean 25, min 20, max 30, last 30. -/
theorem C7_witness :
    (∃ st, refresh_chart_stats
        [⟨1, 1, 0, 60, 173, "metric", 20, "Normal", none⟩,
         ⟨2, 1, 1, 75, 173, "metric", 25, "Overweight", none⟩,
         ⟨3, 1, 2, 90, 173, "metric", 30, "Obese", none⟩] = some st ∧
      st.mean = 25 ∧ st.min = 20 ∧ st.max = 30 ∧ st.last = 30) := by
  obtain ⟨st, hst, hmean, hmin, hminle, hmax, hmaxge, hlast⟩ :=
    (C7_stats
      [⟨1, 1, 0, 60, 173, "metric", 20, "Normal", none⟩,
       ⟨2, 1, 1, 75, 173, "metric", 25, "Overweight", none⟩,
       ⟨3, 1, 2, 90, 173, "metric", 30, "Obese", none⟩]).2 (by simp)
  refine ⟨st, hst, ?_, ?_, ?_, ?_⟩
  · rw [hmean]
    norm_num
  · have h1 := hminle 20 (by simp)
    have h2 : st.min ∈ _ := hmin
    simp only [List.map_cons, List.map_nil, List.mem_cons, List.not_mem_nil, or_false] at h2
    rcases h2 with h | h | h <;> linarith [h1]
  · have h1 := hmaxge 30 (by simp)
    have h2 : st.max ∈ _ := hmax
    simp only [List.map_cons, List.map_nil, List.mem_cons, List.not_mem_nil, or_false] at h2
    rcases h2 with h | h | h <;> linarith [h1]
  · rw [hlast]
    rfl

end BMISpec
